import Mathlib

/-!
Verification of the ECTP frame utility library (libectp.c).

The C code is shallowly embedded: memory is a byte-addressed map
Nat → Nat, every field write is an explicit store at computed offsets,
and 16-bit host/wire conversion is parameterised by the host byte
order (a Bool flag: true means the host is big-endian).
-/

namespace Ectp

/-- Modelled from the spec: constant from the missing header libectp.h.
The frame header is the 2-byte skip offset. -/
def ECTP_FRAME_HDR_SZ : Nat := 2

/-- Modelled from the spec: constant from the missing header libectp.h.
A forward record is a 2-byte discriminator plus a 6-byte hardware
address, 8 bytes in all. -/
def ECTP_FWDMSG_SZ : Nat := 8

/-- Modelled from the spec: constant from the missing header libectp.h.
A minimal reply record is a 2-byte discriminator plus a 2-byte receipt
number, 4 bytes in all. -/
def ECTP_REPLYMSG_MINSZ : Nat := 4

/-- Modelled from the spec: constant from net/ethernet.h, the length of a
hardware address. -/
def ETH_ALEN : Nat := 6

/-- Modelled from the spec: record-type code for a reply record, from the
missing header libectp.h. Its numeric value is irrelevant to the claims. -/
def ECTP_RPLYMSG : Nat := 1

/-- Modelled from the spec: record-type code for a forward record, from the
missing header libectp.h. Its numeric value is irrelevant to the claims. -/
def ECTP_FWDMSG : Nat := 2

/-- Byte-addressed memory: the byte stored at each address. -/
def Mem : Type := Nat → Nat

/-- All-zero memory, used to model a fresh scratch buffer. -/
def zeroMem : Mem := fun _ => 0

/-- bswap_16 from byteswap.h on a 16-bit value: exchange the two bytes. -/
def bswap16 (x : Nat) : Nat := x % 256 * 256 + x / 256 % 256

/-- ectp_htons from libectp.c: on a big-endian host byte-swap, on a
little-endian host the identity. The argument is a uint16, modelled by
reduction mod 2^16 at entry. -/
def ectp_htons (be : Bool) (x : Nat) : Nat :=
  if be then bswap16 (x % 65536) else x % 65536

/-- ectp_ntohs from libectp.c: same body as ectp_htons. -/
def ectp_ntohs (be : Bool) (x : Nat) : Nat :=
  if be then bswap16 (x % 65536) else x % 65536

/-- Store of a uint16 value into two consecutive bytes in host byte order:
a big-endian host puts the most significant byte at the lower address,
a little-endian host the least significant byte. -/
def store16 (be : Bool) (m : Mem) (a v : Nat) : Mem := fun j =>
  if j = a then (if be then v / 256 % 256 else v % 256)
  else if j = a + 1 then (if be then v % 256 else v / 256 % 256)
  else m j

/-- Load of a uint16 from two consecutive bytes in host byte order. -/
def load16 (be : Bool) (m : Mem) (a : Nat) : Nat :=
  if be then m a % 256 * 256 + m (a + 1) % 256
  else m a % 256 + m (a + 1) % 256 * 256

/-- memset over the byte range addressed from start, writing the low byte
of the fill value (the fill argument is a uint8 at the C call boundary). -/
def memsetMem (m : Mem) (start len fill : Nat) : Mem := fun j =>
  if start ≤ j ∧ j < start + len then fill % 256 else m j

/-- memcpy of n bytes from src (at soff) into dst (at doff); each copied
byte is a uint8, modelled by reduction mod 256. -/
def memcpyMem (dst : Mem) (doff : Nat) (src : Mem) (soff n : Nat) : Mem := fun j =>
  if doff ≤ j ∧ j < doff + n then src (soff + (j - doff)) % 256 else dst j

/-- ectp_get_skipcount from libectp.c: read the 2-byte skipcount field of
the frame starting at base and convert from wire order. -/
def ectp_get_skipcount (be : Bool) (m : Mem) (base : Nat) : Nat :=
  ectp_ntohs be (load16 be m base)

/-- ectp_set_skipcount from libectp.c: convert to wire order and store
into the 2-byte skipcount field of the frame starting at base. -/
def ectp_set_skipcount (be : Bool) (m : Mem) (base skipcount : Nat) : Mem :=
  store16 be m base (ectp_htons be skipcount)

/-- ectp_skipc_basicchk_ok from libectp.c: the skipcount passes the basic
check when its low bits against ECTP_FWDMSG_SZ - 1 vanish and it is
strictly below the frame length. -/
def ectp_skipc_basicchk_ok (skipcount ectp_frme_len : Nat) : Bool :=
  if skipcount &&& (ECTP_FWDMSG_SZ - 1) ≠ 0 then false
  else if ectp_frme_len ≤ skipcount then false
  else true

/-- ectp_calc_frame_size from libectp.c, with unsigned int arithmetic
carried out mod 2^32. -/
def ectp_calc_frame_size (num_fwdmsgs payload_size : Nat) : Nat :=
  (ECTP_FRAME_HDR_SZ + num_fwdmsgs * ECTP_FWDMSG_SZ % 4294967296 +
    ECTP_REPLYMSG_MINSZ + payload_size) % 4294967296

/-- ectp_set_msg_type from libectp.c: convert the type code to wire order
and store it into the 2-byte discriminator of the message at base. -/
def ectp_set_msg_type (be : Bool) (m : Mem) (base msg_type : Nat) : Mem :=
  store16 be m base (ectp_htons be msg_type)

/-- ectp_get_msg_type from libectp.c: read the discriminator of the
message at base and convert from wire order. -/
def ectp_get_msg_type (be : Bool) (m : Mem) (base : Nat) : Nat :=
  ectp_ntohs be (load16 be m base)

/-- ectp_set_fwdaddr from libectp.c: copy ETH_ALEN bytes of the supplied
hardware address into the forward-address field. Modelled from the spec:
the forward-address field sits right after the 2-byte discriminator. -/
def ectp_set_fwdaddr (m : Mem) (base : Nat) (fwdaddr : Nat → Nat) : Mem :=
  memcpyMem m (base + 2) fwdaddr 0 ETH_ALEN

/-- ectp_set_fwdmsg from libectp.c: set the discriminator to ECTP_FWDMSG,
then copy the forward address. -/
def ectp_set_fwdmsg (be : Bool) (m : Mem) (base : Nat) (fwdaddr : Nat → Nat) :
    Mem :=
  ectp_set_fwdaddr (ectp_set_msg_type be m base ECTP_FWDMSG) base fwdaddr

/-- ectp_set_rplymsg_rcpt_num from libectp.c: store the receipt number
verbatim, with no byte-order conversion. Modelled from the spec: the
receipt-number field sits right after the 2-byte discriminator. -/
def ectp_set_rplymsg_rcpt_num (be : Bool) (m : Mem) (base rcpt_num : Nat) : Mem :=
  store16 be m (base + 2) rcpt_num

/-- ectp_set_rplymsg_hdr from libectp.c: set the discriminator to
ECTP_RPLYMSG, then store the receipt number. -/
def ectp_set_rplymsg_hdr (be : Bool) (m : Mem) (base rcpt_num : Nat) : Mem :=
  ectp_set_rplymsg_rcpt_num be (ectp_set_msg_type be m base ECTP_RPLYMSG) base
    rcpt_num

/-- ectp_set_rplymsg_data from libectp.c: copy data_size bytes of payload
into the reply data field. Modelled from the spec: the data field sits
after the discriminator and the receipt number, 4 bytes in. -/
def ectp_set_rplymsg_data (m : Mem) (base : Nat) (data : Nat → Nat)
    (data_size : Nat) : Mem :=
  memcpyMem m (base + 4) data 0 data_size

/-- ectp_inc_skipcount from libectp.c: read the skipcount, add
ECTP_FWDMSG_SZ, write it back. -/
def ectp_inc_skipcount (be : Bool) (m : Mem) (base : Nat) : Mem :=
  ectp_set_skipcount be m base (ectp_get_skipcount be m base + ECTP_FWDMSG_SZ)

/-- The forward-message loop of ectp_build_frame, with n addresses still
to process starting at array index ai: while bytes remain, write a whole
forward message if at least ECTP_FWDMSG_SZ bytes remain; otherwise build
the message in a fresh scratch buffer, copy only the bytes that fit, and
leave zero bytes remaining. Returns the memory, the write cursor and the
bytes remaining. -/
def fwdLoop (be : Bool) (fwdaddrs : Nat → Nat → Nat) :
    Nat → Nat → Mem → Nat → Nat → Mem × Nat × Nat
  | 0, _, m, frame_idx, left => (m, frame_idx, left)
  | n + 1, ai, m, frame_idx, left =>
    if left = 0 then (m, frame_idx, left)
    else if ECTP_FWDMSG_SZ ≤ left then
      fwdLoop be fwdaddrs n (ai + 1)
        (ectp_set_fwdmsg be m frame_idx (fwdaddrs ai))
        (frame_idx + ECTP_FWDMSG_SZ) (left - ECTP_FWDMSG_SZ)
    else
      (memcpyMem m frame_idx (ectp_set_fwdmsg be zeroMem 0 (fwdaddrs ai)) 0 left,
        frame_idx, 0)

/-- The reply stages of ectp_build_frame: if no bytes remain, stop; if
strictly more than ECTP_REPLYMSG_MINSZ bytes remain, write the reply
header in place and then the reply data (whole if it fits, else only the
remaining bytes); otherwise build the reply header in a fresh scratch
buffer and copy only the bytes that fit. -/
def replyStage (be : Bool) (rcpt_num : Nat) (data : Nat → Nat) (data_size : Nat)
    (m : Mem) (frame_idx left : Nat) : Mem :=
  if left = 0 then m
  else if ECTP_REPLYMSG_MINSZ < left then
    (if data_size ≤ left - ECTP_REPLYMSG_MINSZ then
      ectp_set_rplymsg_data (ectp_set_rplymsg_hdr be m frame_idx rcpt_num)
        frame_idx data data_size
    else if 0 < left - ECTP_REPLYMSG_MINSZ then
      ectp_set_rplymsg_data (ectp_set_rplymsg_hdr be m frame_idx rcpt_num)
        frame_idx data (left - ECTP_REPLYMSG_MINSZ)
    else
      ectp_set_rplymsg_hdr be m frame_idx rcpt_num)
  else
    memcpyMem m frame_idx (ectp_set_rplymsg_hdr be zeroMem 0 rcpt_num) 0 left

/-- The body of ectp_build_frame after the frame header has been written
in full: the forward-message loop followed by the reply stages. -/
def buildTailAux (be : Bool) (fwdaddrs : Nat → Nat → Nat) (rcpt_num : Nat)
    (data : Nat → Nat) (data_size n ai : Nat) (m : Mem) (frame_idx left : Nat) :
    Mem :=
  replyStage be rcpt_num data data_size
    (fwdLoop be fwdaddrs n ai m frame_idx left).1
    (fwdLoop be fwdaddrs n ai m frame_idx left).2.1
    (fwdLoop be fwdaddrs n ai m frame_idx left).2.2

/-- ectp_build_frame from libectp.c: on a zero-capacity buffer do nothing;
otherwise fill the whole buffer with the filler byte, then write the
skipcount header (whole if strictly more than ECTP_FRAME_HDR_SZ bytes are
available, else a scratch copy of only the bytes that fit), then the
forward messages and the reply stages. -/
def ectp_build_frame (be : Bool) (skipcount : Nat) (fwdaddrs : Nat → Nat → Nat)
    (num_fwdaddrs rcpt_num : Nat) (data : Nat → Nat) (data_size : Nat)
    (frame_buf : Mem) (frame_buf_size filler : Nat) : Mem :=
  if frame_buf_size = 0 then frame_buf
  else if ECTP_FRAME_HDR_SZ < frame_buf_size then
    buildTailAux be fwdaddrs rcpt_num data data_size num_fwdaddrs 0
      (ectp_set_skipcount be (memsetMem frame_buf 0 frame_buf_size filler) 0
        skipcount)
      ECTP_FRAME_HDR_SZ (frame_buf_size - ECTP_FRAME_HDR_SZ)
  else
    memcpyMem (memsetMem frame_buf 0 frame_buf_size filler) 0
      (ectp_set_skipcount be zeroMem 0 skipcount) 0 frame_buf_size

/-- Splitting a two-byte quantity into its high and low byte. -/
lemma split256 (lo hi : Nat) (_hl : lo < 256) (hh : hi < 256) :
    (lo * 256 + hi) / 256 = lo ∧ (lo * 256 + hi) % 256 = hi := by omega

/-- bswap16 always yields a 16-bit value. -/
lemma bswap16_lt (x : Nat) : bswap16 x < 65536 := by unfold bswap16; omega

/-- bswap16 is an involution on 16-bit values. -/
lemma bswap16_invol {x : Nat} (h : x < 65536) : bswap16 (bswap16 x) = x := by
  have h1 := split256 (x % 256) (x / 256 % 256) (by omega) (by omega)
  unfold bswap16
  rw [h1.2, h1.1]
  omega

/-- ectp_htons always yields a 16-bit value. -/
lemma htons_lt (be : Bool) (x : Nat) : ectp_htons be x < 65536 := by
  cases be
  · simp only [ectp_htons, Bool.false_eq_true, if_false]
    omega
  · simp only [ectp_htons, if_true]
    exact bswap16_lt _

/-- The composite ntohs-after-htons is reduction mod 2^16, on either host
byte order. -/
lemma ntohs_htons_mod (be : Bool) (x : Nat) :
    ectp_ntohs be (ectp_htons be x) = x % 65536 := by
  cases be
  · simp only [ectp_ntohs, ectp_htons, Bool.false_eq_true, if_false]
    omega
  · simp only [ectp_ntohs, ectp_htons, if_true]
    rw [Nat.mod_eq_of_lt (bswap16_lt _)]
    exact bswap16_invol (Nat.mod_lt _ (by omega))

/-- The bytes of a swapped 16-bit value: low byte holds the high byte of
the original and conversely. -/
lemma bswap16_bytes {y : Nat} (h : y < 65536) :
    bswap16 y % 256 = y / 256 ∧ bswap16 y / 256 % 256 = y % 256 := by
  have h1 := split256 (y % 256) (y / 256 % 256) (by omega) (by omega)
  unfold bswap16
  rw [h1.1, h1.2]
  omega

/-- Loading back a 16-bit store at the same address yields the stored
value reduced mod 2^16, on either host byte order. -/
lemma load16_store16 (be : Bool) (m : Mem) (a v : Nat) :
    load16 be (store16 be m a v) a = v % 65536 := by
  cases be <;>
    simp only [load16, store16] <;>
    split_ifs <;> omega

/-- A 16-bit store leaves all bytes outside its two addresses unchanged. -/
lemma store16_out (be : Bool) (m : Mem) (a v j : Nat) (h1 : j ≠ a)
    (h2 : j ≠ a + 1) : store16 be m a v j = m j := by
  simp [store16, h1, h2]

/-- A 16-bit load only depends on the two bytes it reads. -/
lemma load16_congr (be : Bool) (m₁ m₂ : Mem) (a : Nat) (h0 : m₁ a = m₂ a)
    (h1 : m₁ (a + 1) = m₂ (a + 1)) : load16 be m₁ a = load16 be m₂ a := by
  cases be <;> simp [load16, h0, h1]

/-- Reading the skipcount back after setting it yields the set value
reduced mod 2^16. -/
lemma get_set_skipcount_mod (be : Bool) (m : Mem) (base v : Nat) :
    ectp_get_skipcount be (ectp_set_skipcount be m base v) base = v % 65536 := by
  unfold ectp_get_skipcount ectp_set_skipcount
  rw [load16_store16, Nat.mod_eq_of_lt (htons_lt be v), ntohs_htons_mod]

/-- C8: the endian adapters are mutually inverse on 16-bit values, on both
the big-endian and the little-endian host assumption. -/
theorem ntohs_htons_roundtrip (be : Bool) (x : Nat) (hx : x < 65536) :
    ectp_ntohs be (ectp_htons be x) = x := by
  rw [ntohs_htons_mod]
  omega

theorem ntohs_htons_roundtrip_witness :
    ectp_ntohs true (ectp_htons true 43981) = 43981 :=
  ntohs_htons_roundtrip true 43981 (by decide)

/-- C3: the basic skipcount check accepts exactly the offsets that are a
multiple of ECTP_FWDMSG_SZ and strictly below the frame length. -/
theorem ectp_skipc_basicchk_ok_iff (skipcount ectp_frme_len : Nat) :
    ectp_skipc_basicchk_ok skipcount ectp_frme_len = true ↔
      (skipcount % ECTP_FWDMSG_SZ = 0 ∧ skipcount < ectp_frme_len) := by
  have h : skipcount &&& (ECTP_FWDMSG_SZ - 1) = skipcount % ECTP_FWDMSG_SZ := by
    have h8 := Nat.and_pow_two_sub_one_eq_mod skipcount 3
    norm_num at h8
    simpa [ECTP_FWDMSG_SZ] using h8
  simp only [ectp_skipc_basicchk_ok, h]
  split_ifs with h1 h2 <;> simp_all

/-- C4 counterexample: on a little-endian host, to_wire of 256 does not
place the most significant byte (namely 1) at the lower address; the byte
actually laid down at offset 0 is 0. -/
theorem wire_not_bigendian_counterexample :
    ¬ (store16 false zeroMem 0 (ectp_htons false 256) 0 = 256 / 256 % 256) := by
  decide

/-- C4 amended: the wire layout of 16-bit fields is little-endian: on
either host byte order, storing to_wire x places the least significant
byte of x at the lower address and the most significant byte at the
higher address, and from_wire applied to a load of that layout recovers
x mod 2^16. -/
theorem wire_little_endian (be : Bool) (x : Nat) :
    store16 be zeroMem 0 (ectp_htons be x) 0 = x % 256 ∧
    store16 be zeroMem 0 (ectp_htons be x) 1 = x / 256 % 256 ∧
    ectp_ntohs be (load16 be (store16 be zeroMem 0 (ectp_htons be x)) 0) =
      x % 65536 := by
  have hx : x % 65536 < 65536 := Nat.mod_lt _ (by omega)
  refine ⟨?_, ?_, ?_⟩
  · cases be
    · simp [store16, ectp_htons]
      omega
    · simp [store16, ectp_htons]
      rw [(bswap16_bytes hx).2]
      omega
  · cases be
    · simp [store16, ectp_htons]
      omega
    · simp [store16, ectp_htons]
      rw [(bswap16_bytes hx).1]
      omega
  · rw [load16_store16, Nat.mod_eq_of_lt (htons_lt be x), ntohs_htons_mod]

/-- C9: the frame sizer computes header size (2 bytes) plus the forward
records plus the minimal reply record plus the payload, exactly, whenever
the exact value fits in an unsigned int. -/
theorem ectp_calc_frame_size_eq (num_fwdmsgs payload_size : Nat)
    (h : 2 + num_fwdmsgs * ECTP_FWDMSG_SZ + ECTP_REPLYMSG_MINSZ + payload_size <
      4294967296) :
    ectp_calc_frame_size num_fwdmsgs payload_size =
      2 + num_fwdmsgs * ECTP_FWDMSG_SZ + ECTP_REPLYMSG_MINSZ + payload_size := by
  simp only [ectp_calc_frame_size, ECTP_FRAME_HDR_SZ, ECTP_FWDMSG_SZ,
    ECTP_REPLYMSG_MINSZ] at *
  omega

theorem ectp_calc_frame_size_eq_witness :
    ectp_calc_frame_size 3 10 = 2 + 3 * ECTP_FWDMSG_SZ + ECTP_REPLYMSG_MINSZ + 10 :=
  ectp_calc_frame_size_eq 3 10 (by decide)

/-- C7: the skipcount set/get pair round-trips every 16-bit value. -/
theorem skipcount_set_get_roundtrip (be : Bool) (m : Mem) (base v : Nat)
    (hv : v < 65536) :
    ectp_get_skipcount be (ectp_set_skipcount be m base v) base = v := by
  rw [get_set_skipcount_mod]
  omega

theorem skipcount_set_get_roundtrip_witness :
    ectp_get_skipcount false (ectp_set_skipcount false zeroMem 0 513) 0 = 513 :=
  skipcount_set_get_roundtrip false zeroMem 0 513 (by decide)

/-- C10: skipcount arithmetic is mod 2^16: setting any unsigned value
stores it mod 2^16, incrementing advances the read-back value by
ECTP_FWDMSG_SZ mod 2^16, and from offset 65528 the increment wraps the
read-back value to 0. -/
theorem skipcount_mod_wraparound (be : Bool) (m : Mem) (base v : Nat) :
    ectp_get_skipcount be (ectp_set_skipcount be m base v) base = v % 65536 ∧
    ectp_get_skipcount be (ectp_inc_skipcount be m base) base =
      (ectp_get_skipcount be m base + ECTP_FWDMSG_SZ) % 65536 ∧
    ectp_get_skipcount be
      (ectp_inc_skipcount be (ectp_set_skipcount be m base 65528) base) base
      = 0 := by
  refine ⟨get_set_skipcount_mod be m base v, ?_, ?_⟩
  · unfold ectp_inc_skipcount
    exact get_set_skipcount_mod be m base _
  · unfold ectp_inc_skipcount
    rw [get_set_skipcount_mod, get_set_skipcount_mod]
    norm_num [ECTP_FWDMSG_SZ]

/-- C5: setting a reply header writes the Reply type code converted to
wire order into the discriminator, and stores the receipt number into the
receipt field verbatim, with no byte-order conversion applied. -/
theorem ectp_set_rplymsg_hdr_fields (be : Bool) (m : Mem) (base r : Nat)
    (hr : r < 65536) :
    load16 be (ectp_set_rplymsg_hdr be m base r) base =
      ectp_htons be ECTP_RPLYMSG ∧
    load16 be (ectp_set_rplymsg_hdr be m base r) (base + 2) = r ∧
    ectp_get_msg_type be (ectp_set_rplymsg_hdr be m base r) base =
      ECTP_RPLYMSG := by
  unfold ectp_set_rplymsg_hdr ectp_set_rplymsg_rcpt_num ectp_set_msg_type
    ectp_get_msg_type
  have hh : load16 be
      (store16 be (store16 be m base (ectp_htons be ECTP_RPLYMSG)) (base + 2) r)
      base =
      load16 be (store16 be m base (ectp_htons be ECTP_RPLYMSG)) base := by
    refine load16_congr be _ _ base ?_ ?_ <;>
      refine store16_out be _ _ r _ (by omega) (by omega)
  refine ⟨?_, ?_, ?_⟩
  · rw [hh, load16_store16]
    exact Nat.mod_eq_of_lt (htons_lt be _)
  · rw [load16_store16]
    omega
  · rw [hh, load16_store16, Nat.mod_eq_of_lt (htons_lt be _), ntohs_htons_mod]
    norm_num [ECTP_RPLYMSG]

theorem ectp_set_rplymsg_hdr_fields_witness :
    load16 false (ectp_set_rplymsg_hdr false zeroMem 0 7) 0 =
      ectp_htons false ECTP_RPLYMSG ∧
    load16 false (ectp_set_rplymsg_hdr false zeroMem 0 7) 2 = 7 ∧
    ectp_get_msg_type false (ectp_set_rplymsg_hdr false zeroMem 0 7) 0 =
      ECTP_RPLYMSG :=
  ectp_set_rplymsg_hdr_fields false zeroMem 0 7 (by decide)

/-- memset leaves bytes outside its range unchanged. -/
lemma memsetMem_out (m : Mem) (start len fill j : Nat)
    (h : j < start ∨ start + len ≤ j) : memsetMem m start len fill j = m j := by
  unfold memsetMem
  split_ifs with hc
  · omega
  · rfl

/-- memset writes the low byte of the fill value inside its range. -/
lemma memsetMem_in (m : Mem) (start len fill j : Nat) (h1 : start ≤ j)
    (h2 : j < start + len) : memsetMem m start len fill j = fill % 256 := by
  unfold memsetMem
  rw [if_pos ⟨h1, h2⟩]

/-- memcpy leaves bytes outside its destination range unchanged. -/
lemma memcpyMem_out (dst : Mem) (doff : Nat) (src : Mem) (soff n j : Nat)
    (h : j < doff ∨ doff + n ≤ j) : memcpyMem dst doff src soff n j = dst j := by
  unfold memcpyMem
  split_ifs with hc
  · omega
  · rfl

/-- memcpy writes the corresponding source byte inside its range. -/
lemma memcpyMem_in (dst : Mem) (doff : Nat) (src : Mem) (soff n j : Nat)
    (h1 : doff ≤ j) (h2 : j < doff + n) :
    memcpyMem dst doff src soff n j = src (soff + (j - doff)) % 256 := by
  unfold memcpyMem
  rw [if_pos ⟨h1, h2⟩]

/-- Writing a forward message touches only its 8 bytes. -/
lemma ectp_set_fwdmsg_out (be : Bool) (m : Mem) (base : Nat) (fa : Nat → Nat)
    (j : Nat) (h : j < base ∨ base + 8 ≤ j) :
    ectp_set_fwdmsg be m base fa j = m j := by
  unfold ectp_set_fwdmsg ectp_set_fwdaddr ectp_set_msg_type
  simp only [ETH_ALEN]
  rw [memcpyMem_out _ _ _ _ _ _ (by omega)]
  exact store16_out _ _ _ _ _ (by omega) (by omega)

/-- Writing a reply header touches only its 4 bytes. -/
lemma ectp_set_rplymsg_hdr_out (be : Bool) (m : Mem) (base r j : Nat)
    (h : j < base ∨ base + 4 ≤ j) :
    ectp_set_rplymsg_hdr be m base r j = m j := by
  unfold ectp_set_rplymsg_hdr ectp_set_rplymsg_rcpt_num ectp_set_msg_type
  rw [store16_out _ _ _ _ _ (by omega) (by omega)]
  exact store16_out _ _ _ _ _ (by omega) (by omega)

/-- Writing reply data touches only the data field bytes. -/
lemma ectp_set_rplymsg_data_out (m : Mem) (base : Nat) (data : Nat → Nat)
    (n j : Nat) (h : j < base + 4 ∨ base + 4 + n ≤ j) :
    ectp_set_rplymsg_data m base data n j = m j := by
  unfold ectp_set_rplymsg_data
  exact memcpyMem_out _ _ _ _ _ _ (by omega)

/-- The reply stages touch only bytes in the remaining window. -/
lemma replyStage_out (be : Bool) (rcpt : Nat) (data : Nat → Nat) (ds : Nat)
    (m : Mem) (idx left j : Nat) (h : j < idx ∨ idx + left ≤ j) :
    replyStage be rcpt data ds m idx left j = m j := by
  unfold replyStage
  simp only [ECTP_REPLYMSG_MINSZ]
  split_ifs with h0 h1 h2 h3
  · rfl
  · rw [ectp_set_rplymsg_data_out _ _ _ _ _ (by omega)]
    exact ectp_set_rplymsg_hdr_out _ _ _ _ _ (by omega)
  · rw [ectp_set_rplymsg_data_out _ _ _ _ _ (by omega)]
    exact ectp_set_rplymsg_hdr_out _ _ _ _ _ (by omega)
  · exact ectp_set_rplymsg_hdr_out _ _ _ _ _ (by omega)
  · exact memcpyMem_out _ _ _ _ _ _ (by omega)

/-- The forward-message loop never moves the cursor backwards, never
enlarges the remaining window, and touches only bytes in the window. -/
lemma fwdLoop_spec (be : Bool) (fa : Nat → Nat → Nat) (n : Nat) :
    ∀ (ai : Nat) (m : Mem) (idx left : Nat),
      idx ≤ (fwdLoop be fa n ai m idx left).2.1 ∧
      (fwdLoop be fa n ai m idx left).2.1 + (fwdLoop be fa n ai m idx left).2.2 ≤
        idx + left ∧
      ∀ j, (j < idx ∨ idx + left ≤ j) → (fwdLoop be fa n ai m idx left).1 j = m j := by
  induction n with
  | zero =>
    intro ai m idx left
    exact ⟨le_refl _, le_refl _, fun j _ => rfl⟩
  | succ n IH =>
    intro ai m idx left
    simp only [fwdLoop, ECTP_FWDMSG_SZ]
    split_ifs with h0 h8
    · exact ⟨le_refl _, le_refl _, fun j _ => rfl⟩
    · obtain ⟨ih1, ih2, ih3⟩ :=
        IH (ai + 1) (ectp_set_fwdmsg be m idx (fa ai)) (idx + 8) (left - 8)
      refine ⟨by omega, by omega, ?_⟩
      intro j hj
      rw [ih3 j (by omega)]
      exact ectp_set_fwdmsg_out be m idx (fa ai) j (by omega)
    · refine ⟨le_refl _, ?_, ?_⟩
      · show idx + 0 ≤ idx + left
        omega
      · intro j hj
        exact memcpyMem_out _ _ _ _ _ _ (by omega)

/-- The loop-plus-reply tail touches only bytes in the remaining window. -/
lemma buildTailAux_out (be : Bool) (fa : Nat → Nat → Nat) (rcpt : Nat)
    (data : Nat → Nat) (ds n ai : Nat) (m : Mem) (idx left j : Nat)
    (h : j < idx ∨ idx + left ≤ j) :
    buildTailAux be fa rcpt data ds n ai m idx left j = m j := by
  obtain ⟨h1, h2, h3⟩ := fwdLoop_spec be fa n ai m idx left
  unfold buildTailAux
  rw [replyStage_out _ _ _ _ _ _ _ _ (by omega)]
  exact h3 j h

/-- The two bytes of a 16-bit store depend only on the stored value and
the relative offset, not on the underlying memory or the base. -/
lemma store16_byte (be : Bool) (m : Mem) (a v k : Nat) (hk : k < 2) :
    store16 be m a v (a + k) = store16 be zeroMem 0 v k := by
  unfold store16
  interval_cases k <;> split_ifs <;> first | rfl | contradiction | omega

/-- The two bytes of a 16-bit store at base 0 do not depend on the
underlying memory. -/
lemma store16_byte0 (be : Bool) (m : Mem) (v k : Nat) (hk : k < 2) :
    store16 be m 0 v k = store16 be zeroMem 0 v k := by
  have h := store16_byte be m 0 v k hk
  simpa using h

/-- The two bytes of a 16-bit store are below 256. -/
lemma store16_byte0_lt (be : Bool) (v k : Nat) (hk : k < 2) :
    store16 be zeroMem 0 v k < 256 := by
  unfold store16
  interval_cases k <;> split_ifs <;> omega

/-- Each of the 8 bytes of a forward message depends only on the address
and the relative offset, not on the underlying memory or the base. -/
lemma ectp_set_fwdmsg_byte (be : Bool) (m : Mem) (base : Nat) (fa : Nat → Nat)
    (k : Nat) (hk : k < 8) :
    ectp_set_fwdmsg be m base fa (base + k) =
      ectp_set_fwdmsg be zeroMem 0 fa k := by
  unfold ectp_set_fwdmsg ectp_set_fwdaddr ectp_set_msg_type
  simp only [ETH_ALEN]
  by_cases h2 : 2 ≤ k
  · rw [memcpyMem_in _ _ _ _ _ _ (by omega) (by omega),
      memcpyMem_in _ _ _ _ _ _ (by omega) (by omega)]
    have he : base + k - (base + 2) = k - 2 := by omega
    rw [he]
  · rw [memcpyMem_out _ _ _ _ _ _ (by omega), memcpyMem_out _ _ _ _ _ _ (by omega)]
    exact store16_byte be m base _ k (by omega)

/-- Each of the 8 bytes of a scratch-built forward message is below 256. -/
lemma ectp_set_fwdmsg_byte_lt (be : Bool) (fa : Nat → Nat) (k : Nat)
    (hk : k < 8) : ectp_set_fwdmsg be zeroMem 0 fa k < 256 := by
  unfold ectp_set_fwdmsg ectp_set_fwdaddr ectp_set_msg_type
  simp only [ETH_ALEN]
  by_cases h2 : 2 ≤ k
  · rw [memcpyMem_in _ _ _ _ _ _ (by omega) (by omega)]
    omega
  · rw [memcpyMem_out _ _ _ _ _ _ (by omega)]
    exact store16_byte0_lt be _ k (by omega)

/-- Each of the 4 bytes of a reply header depends only on the receipt
number and the relative offset, not on the underlying memory or the
base. -/
lemma ectp_set_rplymsg_hdr_byte (be : Bool) (m : Mem) (base r k : Nat)
    (hk : k < 4) :
    ectp_set_rplymsg_hdr be m base r (base + k) =
      ectp_set_rplymsg_hdr be zeroMem 0 r k := by
  unfold ectp_set_rplymsg_hdr ectp_set_rplymsg_rcpt_num ectp_set_msg_type
  simp only [Nat.zero_add]
  by_cases h2 : 2 ≤ k
  · obtain ⟨q, rfl⟩ : ∃ q, k = 2 + q := ⟨k - 2, by omega⟩
    have e1 : base + (2 + q) = (base + 2) + q := by omega
    rw [e1, store16_byte be _ (base + 2) r q (by omega),
      store16_byte be _ 2 r q (by omega)]
  · rw [store16_out be _ (base + 2) r _ (by omega) (by omega),
      store16_out be _ 2 r _ (by omega) (by omega)]
    exact store16_byte be m base _ k (by omega)

/-- Each of the 4 bytes of a scratch-built reply header is below 256. -/
lemma ectp_set_rplymsg_hdr_byte_lt (be : Bool) (r k : Nat) (hk : k < 4) :
    ectp_set_rplymsg_hdr be zeroMem 0 r k < 256 := by
  unfold ectp_set_rplymsg_hdr ectp_set_rplymsg_rcpt_num ectp_set_msg_type
  simp only [Nat.zero_add]
  by_cases h2 : 2 ≤ k
  · obtain ⟨q, rfl⟩ : ∃ q, k = 2 + q := ⟨k - 2, by omega⟩
    rw [store16_byte be _ 2 r q (by omega)]
    exact store16_byte0_lt be r q (by omega)
  · rw [store16_out be _ 2 r _ (by omega) (by omega)]
    exact store16_byte0_lt be _ k (by omega)

/-- Agreement transfer for an in-place forward-message write: if two
memories agree below a bound, writing the same forward message at the
same base keeps them agreeing below that bound. -/
lemma ectp_set_fwdmsg_agree (be : Bool) (fa : Nat → Nat) (m₁ m₂ : Mem)
    (idx B : Nat) (hm : ∀ j, j < B → m₁ j = m₂ j) (j : Nat) (hj : j < B) :
    ectp_set_fwdmsg be m₁ idx fa j = ectp_set_fwdmsg be m₂ idx fa j := by
  by_cases hlo : j < idx
  · rw [ectp_set_fwdmsg_out _ _ _ _ _ (Or.inl hlo),
      ectp_set_fwdmsg_out _ _ _ _ _ (Or.inl hlo)]
    exact hm j hj
  by_cases hhi : idx + 8 ≤ j
  · rw [ectp_set_fwdmsg_out _ _ _ _ _ (Or.inr hhi),
      ectp_set_fwdmsg_out _ _ _ _ _ (Or.inr hhi)]
    exact hm j hj
  obtain ⟨k, rfl⟩ : ∃ k, j = idx + k := ⟨j - idx, by omega⟩
  rw [ectp_set_fwdmsg_byte _ _ _ _ _ (by omega),
    ectp_set_fwdmsg_byte _ _ _ _ _ (by omega)]

/-- Agreement transfer for the reply stages: if two memories agree below
idx + l₁ and l₁ ≤ l₂, the reply stages run with windows l₁ and l₂ agree
below idx + l₁. -/
lemma replyStage_agree (be : Bool) (rcpt : Nat) (data : Nat → Nat) (ds : Nat)
    (m₁ m₂ : Mem) (idx l₁ l₂ : Nat) (hl : l₁ ≤ l₂)
    (hm : ∀ j, j < idx + l₁ → m₁ j = m₂ j) (j : Nat) (hj : j < idx + l₁) :
    replyStage be rcpt data ds m₁ idx l₁ j =
      replyStage be rcpt data ds m₂ idx l₂ j := by
  by_cases hji : j < idx
  · rw [replyStage_out _ _ _ _ _ _ _ _ (Or.inl hji),
      replyStage_out _ _ _ _ _ _ _ _ (Or.inl hji)]
    exact hm j hj
  obtain ⟨k, rfl⟩ : ∃ k, j = idx + k := ⟨j - idx, by omega⟩
  have hk : k < l₁ := by omega
  have hl1 : ¬(l₁ = 0) := by omega
  have hl2 : ¬(l₂ = 0) := by omega
  have hmh : ∀ j', j' < idx + l₁ →
      ectp_set_rplymsg_hdr be m₁ idx rcpt j' =
        ectp_set_rplymsg_hdr be m₂ idx rcpt j' := by
    intro j' hj'
    by_cases hlo : j' < idx
    · rw [ectp_set_rplymsg_hdr_out _ _ _ _ _ (Or.inl hlo),
        ectp_set_rplymsg_hdr_out _ _ _ _ _ (Or.inl hlo)]
      exact hm j' hj'
    by_cases hhi : idx + 4 ≤ j'
    · rw [ectp_set_rplymsg_hdr_out _ _ _ _ _ (Or.inr hhi),
        ectp_set_rplymsg_hdr_out _ _ _ _ _ (Or.inr hhi)]
      exact hm j' hj'
    obtain ⟨q, rfl⟩ : ∃ q, j' = idx + q := ⟨j' - idx, by omega⟩
    rw [ectp_set_rplymsg_hdr_byte _ _ _ _ _ (by omega),
      ectp_set_rplymsg_hdr_byte _ _ _ _ _ (by omega)]
  unfold replyStage
  simp only [ECTP_REPLYMSG_MINSZ]
  rw [if_neg hl1, if_neg hl2]
  by_cases h41 : 4 < l₁
  · have h42 : 4 < l₂ := by omega
    rw [if_pos h41, if_pos h42]
    by_cases hds1 : ds ≤ l₁ - 4
    · rw [if_pos hds1, if_pos (show ds ≤ l₂ - 4 by omega)]
      unfold ectp_set_rplymsg_data
      by_cases hin : idx + 4 ≤ idx + k ∧ idx + k < idx + 4 + ds
      · rw [memcpyMem_in _ _ _ _ _ _ hin.1 hin.2,
          memcpyMem_in _ _ _ _ _ _ hin.1 hin.2]
      · rw [memcpyMem_out _ _ _ _ _ _ (by omega),
          memcpyMem_out _ _ _ _ _ _ (by omega)]
        exact hmh _ hj
    · rw [if_neg hds1, if_pos (show 0 < l₁ - 4 by omega)]
      by_cases hds2 : ds ≤ l₂ - 4
      · rw [if_pos hds2]
        unfold ectp_set_rplymsg_data
        by_cases hin : idx + 4 ≤ idx + k
        · rw [memcpyMem_in _ _ _ _ _ _ hin (by omega),
            memcpyMem_in _ _ _ _ _ _ hin (by omega)]
        · rw [memcpyMem_out _ _ _ _ _ _ (by omega),
            memcpyMem_out _ _ _ _ _ _ (by omega)]
          exact hmh _ hj
      · rw [if_neg hds2, if_pos (show 0 < l₂ - 4 by omega)]
        unfold ectp_set_rplymsg_data
        by_cases hin : idx + 4 ≤ idx + k
        · rw [memcpyMem_in _ _ _ _ _ _ hin (by omega),
            memcpyMem_in _ _ _ _ _ _ hin (by omega)]
        · rw [memcpyMem_out _ _ _ _ _ _ (by omega),
            memcpyMem_out _ _ _ _ _ _ (by omega)]
          exact hmh _ hj
  · rw [if_neg h41]
    rw [memcpyMem_in _ _ _ _ _ _ (by omega) (by omega)]
    by_cases h42 : 4 < l₂
    · rw [if_pos h42]
      have hjlt : idx + k < idx + 4 := by omega
      have hrhs : ∀ n, ectp_set_rplymsg_data
          (ectp_set_rplymsg_hdr be m₂ idx rcpt) idx data n (idx + k) =
          ectp_set_rplymsg_hdr be zeroMem 0 rcpt k := by
        intro n
        rw [ectp_set_rplymsg_data_out _ _ _ _ _ (Or.inl hjlt)]
        exact ectp_set_rplymsg_hdr_byte _ _ _ _ _ (by omega)
      split_ifs with hds2 hpos
      · rw [hrhs ds]
        simp only [Nat.zero_add, Nat.add_sub_cancel_left]
        exact Nat.mod_eq_of_lt (ectp_set_rplymsg_hdr_byte_lt _ _ _ (by omega))
      · rw [hrhs (l₂ - 4)]
        simp only [Nat.zero_add, Nat.add_sub_cancel_left]
        exact Nat.mod_eq_of_lt (ectp_set_rplymsg_hdr_byte_lt _ _ _ (by omega))
      · omega
    · rw [if_neg h42]
      rw [memcpyMem_in _ _ _ _ _ _ (by omega) (by omega)]

/-- Agreement transfer for the loop-plus-reply tail: with the same cursor
and agreeing memories, a smaller remaining window produces the same bytes
below its end as a larger one. -/
lemma buildTailAux_agree (be : Bool) (fa : Nat → Nat → Nat) (rcpt : Nat)
    (data : Nat → Nat) (ds : Nat) (n : Nat) :
    ∀ (ai idx l₁ l₂ : Nat) (m₁ m₂ : Mem), l₁ ≤ l₂ →
      (∀ j, j < idx + l₁ → m₁ j = m₂ j) →
      ∀ j, j < idx + l₁ →
        buildTailAux be fa rcpt data ds n ai m₁ idx l₁ j =
          buildTailAux be fa rcpt data ds n ai m₂ idx l₂ j := by
  induction n with
  | zero =>
    intro ai idx l₁ l₂ m₁ m₂ hl hm j hj
    exact replyStage_agree be rcpt data ds m₁ m₂ idx l₁ l₂ hl hm j hj
  | succ n IH =>
    intro ai idx l₁ l₂ m₁ m₂ hl hm j hj
    by_cases h0 : l₁ = 0
    · subst h0
      rw [buildTailAux_out _ _ _ _ _ _ _ _ _ _ _ (by omega),
        buildTailAux_out _ _ _ _ _ _ _ _ _ _ _ (Or.inl (by omega))]
      exact hm j hj
    by_cases h8 : 8 ≤ l₁
    · have h02 : ¬(l₂ = 0) := by omega
      have h82 : 8 ≤ l₂ := by omega
      have e₁ : buildTailAux be fa rcpt data ds (n + 1) ai m₁ idx l₁ =
          buildTailAux be fa rcpt data ds n (ai + 1)
            (ectp_set_fwdmsg be m₁ idx (fa ai)) (idx + 8) (l₁ - 8) := by
        unfold buildTailAux
        simp only [fwdLoop, ECTP_FWDMSG_SZ]
        rw [if_neg h0, if_pos h8]
      have e₂ : buildTailAux be fa rcpt data ds (n + 1) ai m₂ idx l₂ =
          buildTailAux be fa rcpt data ds n (ai + 1)
            (ectp_set_fwdmsg be m₂ idx (fa ai)) (idx + 8) (l₂ - 8) := by
        unfold buildTailAux
        simp only [fwdLoop, ECTP_FWDMSG_SZ]
        rw [if_neg h02, if_pos h82]
      rw [e₁, e₂]
      refine IH (ai + 1) (idx + 8) (l₁ - 8) (l₂ - 8) _ _ (by omega) ?_ j (by omega)
      intro j' hj'
      exact ectp_set_fwdmsg_agree be (fa ai) m₁ m₂ idx (idx + l₁) hm j' (by omega)
    · have e₁ : buildTailAux be fa rcpt data ds (n + 1) ai m₁ idx l₁ =
          memcpyMem m₁ idx (ectp_set_fwdmsg be zeroMem 0 (fa ai)) 0 l₁ := by
        unfold buildTailAux
        simp only [fwdLoop, ECTP_FWDMSG_SZ]
        rw [if_neg h0, if_neg h8]
        rfl
      rw [e₁]
      by_cases h82 : 8 ≤ l₂
      · have h02 : ¬(l₂ = 0) := by omega
        have e₂ : buildTailAux be fa rcpt data ds (n + 1) ai m₂ idx l₂ =
            buildTailAux be fa rcpt data ds n (ai + 1)
              (ectp_set_fwdmsg be m₂ idx (fa ai)) (idx + 8) (l₂ - 8) := by
          unfold buildTailAux
          simp only [fwdLoop, ECTP_FWDMSG_SZ]
          rw [if_neg h02, if_pos h82]
        rw [e₂, buildTailAux_out _ _ _ _ _ _ _ _ _ _ _ (Or.inl (by omega))]
        by_cases hji : j < idx
        · rw [memcpyMem_out _ _ _ _ _ _ (Or.inl hji),
            ectp_set_fwdmsg_out _ _ _ _ _ (Or.inl hji)]
          exact hm j hj
        · obtain ⟨k, rfl⟩ : ∃ k, j = idx + k := ⟨j - idx, by omega⟩
          rw [memcpyMem_in m₁ idx (ectp_set_fwdmsg be zeroMem 0 (fa ai)) 0 l₁
              (idx + k) (by omega) (by omega),
            ectp_set_fwdmsg_byte be m₂ idx (fa ai) k (by omega)]
          simp only [Nat.zero_add, Nat.add_sub_cancel_left]
          exact Nat.mod_eq_of_lt (ectp_set_fwdmsg_byte_lt be (fa ai) k (by omega))
      · have h02 : ¬(l₂ = 0) := by omega
        have e₂ : buildTailAux be fa rcpt data ds (n + 1) ai m₂ idx l₂ =
            memcpyMem m₂ idx (ectp_set_fwdmsg be zeroMem 0 (fa ai)) 0 l₂ := by
          unfold buildTailAux
          simp only [fwdLoop, ECTP_FWDMSG_SZ]
          rw [if_neg h02, if_neg h82]
          rfl
        rw [e₂]
        by_cases hji : j < idx
        · rw [memcpyMem_out _ _ _ _ _ _ (Or.inl hji),
            memcpyMem_out _ _ _ _ _ _ (Or.inl hji)]
          exact hm j hj
        · obtain ⟨k, rfl⟩ : ∃ k, j = idx + k := ⟨j - idx, by omega⟩
          rw [memcpyMem_in m₁ idx (ectp_set_fwdmsg be zeroMem 0 (fa ai)) 0 l₁
              (idx + k) (by omega) (by omega),
            memcpyMem_in m₂ idx (ectp_set_fwdmsg be zeroMem 0 (fa ai)) 0 l₂
              (idx + k) (by omega) (by omega)]

/-- The front bytes of a build are independent of the capacity: building
with capacity c and with any capacity C at least c produces the same
bytes below c, whatever the two initial memories are. -/
lemma build_agree_front (be : Bool) (sk : Nat) (fa : Nat → Nat → Nat)
    (num rcpt : Nat) (data : Nat → Nat) (ds : Nat) (m₁ m₂ : Mem)
    (c C filler : Nat) (hcC : c ≤ C) (j : Nat) (hj : j < c) :
    ectp_build_frame be sk fa num rcpt data ds m₁ c filler j =
      ectp_build_frame be sk fa num rcpt data ds m₂ C filler j := by
  have hc0 : ¬(c = 0) := by omega
  have hC0 : ¬(C = 0) := by omega
  unfold ectp_build_frame
  simp only [ECTP_FRAME_HDR_SZ]
  rw [if_neg hc0, if_neg hC0]
  by_cases hc2 : 2 < c
  · have hC2 : 2 < C := by omega
    rw [if_pos hc2, if_pos hC2]
    refine buildTailAux_agree be fa rcpt data ds num 0 2 (c - 2) (C - 2) _ _
      (by omega) ?_ j (by omega)
    intro j' hj'
    unfold ectp_set_skipcount
    by_cases hj2 : j' < 2
    · rw [store16_byte0 be (memsetMem m₁ 0 c filler) _ _ hj2,
        store16_byte0 be (memsetMem m₂ 0 C filler) _ _ hj2]
    · rw [store16_out _ _ _ _ _ (by omega) (by omega),
        store16_out _ _ _ _ _ (by omega) (by omega)]
      rw [memsetMem_in _ _ _ _ _ (by omega) (by omega),
        memsetMem_in _ _ _ _ _ (by omega) (by omega)]
  · rw [if_neg hc2]
    rw [memcpyMem_in (memsetMem m₁ 0 c filler) 0
      (ectp_set_skipcount be zeroMem 0 sk) 0 c j (by omega) (by omega)]
    by_cases hC2 : 2 < C
    · rw [if_pos hC2]
      rw [buildTailAux_out _ _ _ _ _ _ _ _ _ _ _ (Or.inl (by omega))]
      unfold ectp_set_skipcount
      rw [store16_byte0 be (memsetMem m₂ 0 C filler) _ j (by omega)]
      simp only [Nat.zero_add, Nat.sub_zero]
      exact Nat.mod_eq_of_lt (store16_byte0_lt _ _ _ (by omega))
    · rw [if_neg hC2]
      rw [memcpyMem_in (memsetMem m₂ 0 C filler) 0
        (ectp_set_skipcount be zeroMem 0 sk) 0 C j (by omega) (by omega)]

/-- C1: truncation ordering of the frame builder: for any capacity c with
0 < c below the full frame size, the capacity-c build agrees byte for
byte below c with the full-capacity build, whatever the two initial
memories are; the field spanning the cut is present only up to c and all
later fields are dropped, exactly as taking the first c bytes of the full
build. -/
theorem ectp_build_frame_truncation (be : Bool) (skipcount : Nat)
    (fwdaddrs : Nat → Nat → Nat) (num_fwdaddrs rcpt_num : Nat)
    (data : Nat → Nat) (data_size : Nat) (m₁ m₂ : Mem) (filler c j : Nat)
    (_hc0 : 0 < c) (hcS : c < ectp_calc_frame_size num_fwdaddrs data_size)
    (hj : j < c) :
    ectp_build_frame be skipcount fwdaddrs num_fwdaddrs rcpt_num data data_size
      m₁ c filler j =
    ectp_build_frame be skipcount fwdaddrs num_fwdaddrs rcpt_num data data_size
      m₂ (ectp_calc_frame_size num_fwdaddrs data_size) filler j :=
  build_agree_front be skipcount fwdaddrs num_fwdaddrs rcpt_num data data_size
    m₁ m₂ c (ectp_calc_frame_size num_fwdaddrs data_size) filler
    (Nat.le_of_lt hcS) j hj

theorem ectp_build_frame_truncation_witness :
    ectp_build_frame false 9 (fun _ _ => 2) 1 5 (fun _ => 3) 2 zeroMem 5 171 3 =
      ectp_build_frame false 9 (fun _ _ => 2) 1 5 (fun _ => 3) 2 zeroMem
        (ectp_calc_frame_size 1 2) 171 3 :=
  ectp_build_frame_truncation false 9 (fun _ _ => 2) 1 5 (fun _ => 3) 2 zeroMem
    zeroMem 171 5 3 (by decide) (by decide) (by decide)

/-- C2: the frame builder never writes outside the caller-supplied
capacity: every byte at an index at or beyond frame_buf_size is left
unchanged, for every input and every capacity. -/
theorem ectp_build_frame_no_overrun (be : Bool) (skipcount : Nat)
    (fwdaddrs : Nat → Nat → Nat) (num_fwdaddrs rcpt_num : Nat)
    (data : Nat → Nat) (data_size : Nat) (frame_buf : Mem)
    (frame_buf_size filler j : Nat) (h : frame_buf_size ≤ j) :
    ectp_build_frame be skipcount fwdaddrs num_fwdaddrs rcpt_num data data_size
      frame_buf frame_buf_size filler j = frame_buf j := by
  unfold ectp_build_frame
  simp only [ECTP_FRAME_HDR_SZ]
  split_ifs with h0 h2
  · rfl
  · rw [buildTailAux_out _ _ _ _ _ _ _ _ _ _ _ (by omega)]
    unfold ectp_set_skipcount
    rw [store16_out _ _ _ _ _ (by omega) (by omega)]
    exact memsetMem_out _ _ _ _ _ (by omega)
  · rw [memcpyMem_out _ _ _ _ _ _ (by omega)]
    exact memsetMem_out _ _ _ _ _ (by omega)

theorem ectp_build_frame_no_overrun_witness :
    ectp_build_frame false 0 (fun _ _ => 0) 1 0 (fun _ => 0) 2 zeroMem 4 7 10 =
      zeroMem 10 :=
  ectp_build_frame_no_overrun false 0 (fun _ _ => 0) 1 0 (fun _ => 0) 2 zeroMem
    4 7 10 (by decide)

/-- C6: building into a zero-capacity buffer leaves every byte of the
destination unchanged. -/
theorem ectp_build_frame_zero_capacity (be : Bool) (skipcount : Nat)
    (fwdaddrs : Nat → Nat → Nat) (num_fwdaddrs rcpt_num : Nat)
    (data : Nat → Nat) (data_size : Nat) (frame_buf : Mem) (filler : Nat) :
    ectp_build_frame be skipcount fwdaddrs num_fwdaddrs rcpt_num data data_size
      frame_buf 0 filler = frame_buf := rfl

end Ectp
